import Mathlib

/-!
Verification of the real-time chat-room server (`server.py`).

This file gives a shallow embedding of the server's state and operations:

* the module-level dictionaries `USERS`, `USERNAMES`, `ROOMS` become the
  fields of `ServerState`; Python `dict`s become insertion-ordered
  association lists and Python `set`s become duplicate-free
  insertion-ordered lists;
* the log directory becomes the `logs` field, a map from file name to the
  list of lines of that file; a line is either a well-formed JSON record or
  a malformed/blank line (`Line.malformed`), which is what
  `tail_room_log`'s `json.JSONDecodeError` handler skips;
* each `async def handle_*` coroutine becomes a pure function from the
  state and the decoded request to the new state plus the list of messages
  sent (`ws.send` / `broadcast` calls, in program order);
* `append_room_log` opens a file and can raise an `OSError`; publishing is
  therefore embedded with an explicit `appendOk` oracle, and
  `handle_publish` returns `Except Unit _`, where `.error ()` is an
  exception propagating out of the coroutine;
* the `handler` connection loop becomes `runLoop` (the `async for` loop)
  followed by `disconnect` (the `finally:` block), and multi-connection
  interleavings are modelled by the `Reachable` relation whose steps apply
  one decoded action of one connection, or one transport close, atomically
  (the server is single-threaded and every shared-state mutation sequence
  in the handlers runs without an intervening await on another handler).

Python's `str.strip` is embedded as `pyStrip` (drop whitespace at both
ends) and `str.isalnum` as `Char.isAlphanum` (faithful on ASCII).
-/

/-- A connection handle (the `WebSocketServerProtocol` object identity). -/
abbrev Conn := Nat

/-- Python `str.strip()`: removes leading and trailing whitespace. -/
def pyStrip (s : String) : String :=
  ⟨((s.data.dropWhile Char.isWhitespace).reverse.dropWhile Char.isWhitespace).reverse⟩

/-- Python `dict` lookup `d.get(k)` on an insertion-ordered association list. -/
def dictGet {α β : Type} [DecidableEq α] : List (α × β) → α → Option β
  | [], _ => none
  | p :: rest, k => if p.1 = k then some p.2 else dictGet rest k

/-- Python `dict` assignment `d[k] = v`: replaces in place, appends if absent. -/
def dictSet {α β : Type} [DecidableEq α] : List (α × β) → α → β → List (α × β)
  | [], k, v => [(k, v)]
  | p :: rest, k, v => if p.1 = k then (k, v) :: rest else p :: dictSet rest k v

/-- Python `dict.pop(k, None)`: removes the entry for `k` if present. -/
def dictPop {α β : Type} [DecidableEq α] : List (α × β) → α → List (α × β)
  | [], _ => []
  | p :: rest, k => if p.1 = k then rest else p :: dictPop rest k

/-- Python `set.add`: inserts an element if it is not already present. -/
def setAdd {α : Type} [DecidableEq α] (l : List α) (a : α) : List α :=
  if a ∈ l then l else l ++ [a]

/-- A history record, the JSON object written by `handle_publish`
(the constant `"type":"message"` field is part of the serialization and
omitted).  `username` is `USERS.get(ws)`, hence an `Option`. -/
structure Record where
  room : String
  username : Option String
  message : String
  ts : Nat
deriving DecidableEq, Repr

/-- One line of a room log file: a well-formed JSON record, or a blank or
non-decodable line (which `tail_room_log` skips). -/
inductive Line where
  | json (r : Record)
  | malformed
deriving DecidableEq, Repr

/-- The payloads the server sends (`encode` of the dicts in `server.py`). -/
inductive Payload where
  | errAct (action reason : String)
  | err (reason : String)
  | ok (action : String)
  | sysSubscribed (rooms : List String)
  | sysUnsubscribed (rooms : List String)
  | sysJoin (room username : String)
  | sysLeave (room username : String)
  | roomUpdate (room : String) (users : List String)
  | history (room : String) (messages : List Record)
  | msg (r : Record)
deriving DecidableEq, Repr

/-- A message sent on the wire: target connection and payload. -/
abbrev Send := Conn × Payload

/-- Whether a payload is an error reply (`{"type":"error", ...}`). -/
def isErrPayload : Payload → Bool
  | .errAct _ _ => true
  | .err _ => true
  | _ => false

/-- The server's mutable state: `USERS`, `USERNAMES`, `ROOMS` and the
contents of the log directory (file name → lines). -/
structure ServerState where
  users : List (Conn × String)
  usernames : List String
  rooms : List (String × List Conn)
  logs : List (String × List Line)
deriving DecidableEq, Repr

/-- Embeds `log_path_for`: keep only alphanumeric characters, `-` and `_`,
and add the `.txt` extension. -/
def allowedChar (c : Char) : Bool := c.isAlphanum || c = '-' || c = '_'

def log_path_for (room : String) : String :=
  String.mk (room.data.filter allowedChar) ++ ".txt"

/-- Embeds `append_room_log`: append one JSON line to the room's log file
(mode `"a"` creates the file if absent). -/
def append_room_log (logs : List (String × List Line)) (room : String)
    (record : Record) : List (String × List Line) :=
  let p := log_path_for room
  dictSet logs p ((dictGet logs p).getD [] ++ [Line.json record])

/-- Parsing of one log line, `json.loads` of one stripped line, `none` when the line is
blank or raises `JSONDecodeError`. -/
def lineRecord : Line → Option Record
  | .json r => some r
  | .malformed => none

/-- Embeds `tail_room_log`: read the last `n` lines of the room's log and parse
them, skipping blank/malformed lines.  `lines[-n:]` is the whole list when
`n = 0` (Python `-0 == 0`), otherwise the last `min n len` lines. -/
def tail_room_log (logs : List (String × List Line)) (room : String)
    (n : Nat) : List Record :=
  match dictGet logs (log_path_for room) with
  | none => []
  | some lines =>
      let last_lines := if n = 0 then lines else lines.drop (lines.length - n)
      last_lines.filterMap lineRecord

/-- Python `ROOMS.get(room, set())`. -/
def roomMembers (s : ServerState) (room : String) : List Conn :=
  (dictGet s.rooms room).getD []

/-- Embeds `broadcast`: send the payload to every subscriber of the room except
`except?` (the set is copied before sending; failed sends are swallowed by
`return_exceptions=True`, so a send here records an attempt). -/
def broadcast (s : ServerState) (room : String) (p : Payload)
    (except? : Option Conn) : List Send :=
  let targets := roomMembers s room
  let targets := match except? with
    | some e => targets.erase e
    | none => targets
  targets.map (fun t => (t, p))

/-- Lexicographic strict comparison of char lists by code point. -/
def lexLt : List Char → List Char → Bool
  | [], [] => false
  | [], _ :: _ => true
  | _ :: _, [] => false
  | a :: as, b :: bs =>
    if a.toNat < b.toNat then true
    else if b.toNat < a.toNat then false
    else lexLt as bs

/-- Bool lexicographic comparison used to model Python `sorted` on strings
(Python compares strings by Unicode code point). -/
def strLeB (a b : String) : Bool := lexLt a.data b.data || a == b

def insertSorted (a : String) : List String → List String
  | [] => [a]
  | b :: rest => if strLeB a b then a :: b :: rest else b :: insertSorted a rest

/-- Python `sorted` on a list of strings (insertion sort; same output). -/
def sortStrings (l : List String) : List String := l.foldr insertSorted []

/-- Python `sorted([USERS[ws] for ws in subscribers if ws in USERS])`. -/
def memberNames (s : ServerState) (room : String) : List String :=
  sortStrings ((roomMembers s room).filterMap (dictGet s.users))

/-- Embeds `broadcast_room_update`: send the sorted member-name list to every
subscriber of the room (nothing when the room has no subscribers). -/
def broadcast_room_update (s : ServerState) (room : String) : List Send :=
  if roomMembers s room = [] then []
  else broadcast s room (.roomUpdate room (memberNames s room)) none

/-- Embeds `handle_login`. -/
def handle_login (s : ServerState) (ws : Conn) (username0 : String) :
    ServerState × List Send :=
  let username := pyStrip username0
  if username = "" then (s, [(ws, .errAct "login" "Username required")])
  else if username ∈ s.usernames then
    (s, [(ws, .errAct "login" "Username taken")])
  else
    ({ s with users := dictSet s.users ws username,
              usernames := setAdd s.usernames username },
     [(ws, .ok "login")])

/-- One iteration of the `for room_str in rooms:` loop of `handle_subscribe`:
skip blank names, record `is_new_sub`, add the connection to the room's set
(creating it if absent), unconditionally append to `newly_subscribed_rooms`,
and broadcast a join notice to the others only when newly subscribed. -/
def subFold (ws : Conn) (username : String)
    (acc : ServerState × List Send × List String) (room_str : String) :
    ServerState × List Send × List String :=
  let room := pyStrip room_str
  if room = "" then acc
  else
    let s := acc.1
    let is_new_sub := ws ∉ roomMembers s room
    let s' := { s with rooms := dictSet s.rooms room (setAdd (roomMembers s room) ws) }
    let sends' :=
      if is_new_sub then
        acc.2.1 ++ broadcast s' room (.sysJoin room username) (some ws)
      else acc.2.1
    (s', sends', acc.2.2 ++ [room])

/-- Embeds `handle_subscribe`.  Here `rooms? = none` models a missing/falsy `rooms`
field (`data.get("rooms") or []`). -/
def handle_subscribe (s : ServerState) (ws : Conn)
    (rooms? : Option (List String)) : ServerState × List Send :=
  match rooms?.getD [] with
  | [] => (s, [(ws, .errAct "subscribe" "rooms list required")])
  | rooms =>
    match dictGet s.users ws with
    | none => (s, [])
    | some username =>
      let r := rooms.foldl (subFold ws username) (s, [], [])
      let s' := r.1
      let newly := r.2.2
      let confirm : List Send :=
        if newly = [] then [] else [(ws, .sysSubscribed newly)]
      let post := newly.flatMap (fun room =>
        (let h := tail_room_log s'.logs room 50
         if h = [] then [] else [(ws, Payload.history room h)])
        ++ broadcast_room_update s' room)
      (s', r.2.1 ++ confirm ++ post)

/-- One iteration of the loop of `handle_unsubscribe`: if the connection is
a member, remove it, prune the room when its set became empty, then
broadcast the leave notice and the membership update. -/
def unsubFold (ws : Conn) (username : String)
    (acc : ServerState × List Send × List String) (room : String) :
    ServerState × List Send × List String :=
  let s := acc.1
  match dictGet s.rooms room with
  | none => acc
  | some subs =>
    if ws ∈ subs then
      let subs' := subs.erase ws
      let s' := { s with rooms :=
        if subs' = [] then dictPop s.rooms room else dictSet s.rooms room subs' }
      (s', acc.2.1 ++ broadcast s' room (.sysLeave room username) none
             ++ broadcast_room_update s' room,
       acc.2.2 ++ [room])
    else acc

/-- Embeds `handle_unsubscribe`: note there is no validation of the rooms list. -/
def handle_unsubscribe (s : ServerState) (ws : Conn)
    (rooms? : Option (List String)) : ServerState × List Send :=
  let rooms_to_unsub := rooms?.getD []
  match dictGet s.users ws with
  | none => (s, [])
  | some username =>
    let r := rooms_to_unsub.foldl (unsubFold ws username) (s, [], [])
    (r.1, r.2.1 ++ if r.2.2 = [] then [] else [(ws, .sysUnsubscribed r.2.2)])

/-- Embeds `handle_publish`.  Here `appendOk` tells whether the file append succeeds;
when it raises, the exception propagates out of the coroutine (`.error ()`)
before any broadcast. -/
def handle_publish (appendOk : Bool) (s : ServerState) (ws : Conn)
    (room0 message0 : String) (ts : Nat) :
    Except Unit (ServerState × List Send) :=
  let room := pyStrip room0
  let message := pyStrip message0
  if room = "" ∨ message = "" then
    .ok (s, [(ws, .errAct "publish" "room and message required")])
  else
    let record : Record := ⟨room, dictGet s.users ws, message, ts⟩
    if appendOk then
      let s' := { s with logs := append_room_log s.logs room record }
      .ok (s', broadcast s' room (.msg record) none)
    else
      .error ()

/-- The `ROOMS` keys whose subscriber set contains the connection. -/
def roomsOf (s : ServerState) (ws : Conn) : List String :=
  (s.rooms.filter (fun p => ws ∈ p.2)).map Prod.fst

/-- Embeds `disconnect`: pop the `USERS` entry (Python returns early on a falsy
username, i.e. absent or empty), remove the username from `USERNAMES`,
remove the connection from every room pruning emptied rooms, then broadcast
a leave notice and a membership update for each room left. -/
def disconnect (s : ServerState) (ws : Conn) : ServerState × List Send :=
  match dictGet s.users ws with
  | none => (s, [])
  | some username =>
    if username = "" then ({ s with users := dictPop s.users ws }, [])
    else
      let s1 := { s with users := dictPop s.users ws,
                         usernames := s.usernames.erase username }
      let rooms_left := roomsOf s1 ws
      let cleaned :=
        (s1.rooms.map (fun p => (p.1, p.2.erase ws))).filter (fun p => !p.2.isEmpty)
      let s2 := { s1 with rooms := cleaned }
      (s2, rooms_left.flatMap (fun room =>
        broadcast s2 room (.sysLeave room username) none
          ++ broadcast_room_update s2 room))

/-- One decoded client message, as the dispatch in `handler` sees it.
`publish` carries the wall-clock second and the append-success oracle;
`other` is any unknown (or missing) action name; `malformed` is a payload
`json.loads` rejects. -/
inductive ClientAction where
  | login (username : String)
  | subscribe (rooms : Option (List String))
  | unsubscribe (rooms : Option (List String))
  | publish (room message : String) (ts : Nat) (appendOk : Bool)
  | logout
  | other (name : String)
  | malformed
deriving DecidableEq, Repr

def isLoginAction : ClientAction → Bool
  | .login _ => true
  | _ => false

/-- Result of processing one incoming message: either the loop continues,
or it stops (logout `break`, or an exception propagating out of the loop). -/
inductive StepResult where
  | cont (s : ServerState) (sends : List Send)
  | stop (s : ServerState) (sends : List Send)
deriving DecidableEq, Repr

def StepResult.state : StepResult → ServerState
  | .cont s _ => s
  | .stop s _ => s

def StepResult.sends : StepResult → List Send
  | .cont _ o => o
  | .stop _ o => o

/-- One iteration of the `async for raw_message in ws:` loop of `handler`:
decode, pre-authentication gate, dispatch. -/
def handlerStep (s : ServerState) (ws : Conn) (a : ClientAction) : StepResult :=
  if a = .malformed then
    .cont s [(ws, .err "Invalid JSON message format")]
  else if isLoginAction a = false ∧ dictGet s.users ws = none then
    .cont s [(ws, .err "Authentication required. Please log in.")]
  else
    match a with
    | .login u =>
      if (dictGet s.users ws).isSome then
        .cont s [(ws, .errAct "login" "You are already logged in")]
      else
        let r := handle_login s ws u
        .cont r.1 r.2
    | .subscribe rs =>
      let r := handle_subscribe s ws rs
      .cont r.1 r.2
    | .unsubscribe rs =>
      let r := handle_unsubscribe s ws rs
      .cont r.1 r.2
    | .publish room message ts apOk =>
      match handle_publish apOk s ws room message ts with
      | .ok r => .cont r.1 r.2
      | .error _ => .stop s []
    | .logout => .stop s []
    | .other name => .cont s [(ws, .err ("Unknown action: " ++ name))]
    | .malformed => .cont s []

/-- The message loop of `handler`: an exhausted action list models the
transport closing (`ConnectionClosed`), which also exits the loop. -/
def runLoop (ws : Conn) : ServerState → List ClientAction → ServerState × List Send
  | s, [] => (s, [])
  | s, a :: rest =>
    match handlerStep s ws a with
    | .cont s' out =>
      let r := runLoop ws s' rest
      (r.1, out ++ r.2)
    | .stop s' out => (s', out)

/-- The whole `handler` coroutine: the message loop, then the `finally:`
block, which always runs `disconnect` exactly once, on every exit path
(logout break, exception, transport close). -/
def handler (s : ServerState) (ws : Conn) (actions : List ClientAction) :
    ServerState × List Send :=
  let r := runLoop ws s actions
  let d := disconnect r.1 ws
  (d.1, r.2 ++ d.2)

/-- A global event: one connection's decoded message processed to
completion, or one transport close triggering the `finally:` cleanup. -/
inductive Event where
  | act (ws : Conn) (a : ClientAction)
  | close (ws : Conn)

def applyEvent (s : ServerState) : Event → ServerState
  | .act ws a => (handlerStep s ws a).state
  | .close ws => (disconnect s ws).1

/-- Server start: empty registry and directory; the log directory may
already hold files from earlier runs. -/
def initState (logs : List (String × List Line)) : ServerState :=
  ⟨[], [], [], logs⟩

/-- The states the server can reach from a fresh start. -/
inductive Reachable : ServerState → Prop where
  | init (logs : List (String × List Line)) : Reachable (initState logs)
  | step {s : ServerState} (e : Event) : Reachable s → Reachable (applyEvent s e)

/-- Well-formedness of the shared state, maintained by every event:
the username set and the registry's keys and values are duplicate-free,
the username set is exactly the set of registered usernames (all
non-empty), room keys are duplicate-free, and every room's subscriber set
is non-empty, duplicate-free, and made of registered connections. -/
def stateWF (s : ServerState) : Prop :=
  s.usernames.Nodup ∧
  (s.users.map Prod.fst).Nodup ∧
  (s.users.map Prod.snd).Nodup ∧
  (∀ u ∈ s.usernames, u ∈ s.users.map Prod.snd) ∧
  (∀ p ∈ s.users, p.2 ∈ s.usernames ∧ p.2 ≠ "") ∧
  (s.rooms.map Prod.fst).Nodup ∧
  (∀ p ∈ s.rooms, p.2 ≠ [] ∧ p.2.Nodup ∧ ∀ c ∈ p.2, c ∈ s.users.map Prod.fst)

instance (s : ServerState) : Decidable (stateWF s) := by
  unfold stateWF; infer_instance

/-! ### Concrete states used to exercise the model -/

/-- A record already present in the `general` room's log. -/
def rec0 : Record := ⟨"general", some "bob", "hi", 100⟩

/-- A state with `alice` (connection 1) and `bob` (connection 2) logged in,
both subscribed to `general`, whose log holds one record. -/
def exSt : ServerState :=
  ⟨[(1, "alice"), (2, "bob")], ["alice", "bob"], [("general", [1, 2])],
   [("general.txt", [Line.json rec0])]⟩

/-- A list of 51 well-formed records, more than the replay limit of 50. -/
def exRecs : List Record :=
  (List.range 51).map (fun i => ⟨"news", some "bob", "hi", i⟩)

/-- A log directory whose `news` room log holds the 51 records. -/
def exLogs51 : List (String × List Line) :=
  [("news.txt", exRecs.map Line.json)]

/-- A state with `alice` logged in, no rooms, and the 51-record `news`
log on file. -/
def stNews : ServerState := ⟨[(1, "alice")], ["alice"], [], exLogs51⟩

/-- The state reached from a fresh start after `alice` logs in on
connection 1. -/
def stLogin : ServerState :=
  applyEvent (initState []) (.act 1 (.login "alice"))

/-- State `stLogin` after connection 1 subscribes to `general`. -/
def stSub : ServerState :=
  applyEvent stLogin (.act 1 (.subscribe (some ["general"])))

/-! ### C1 -/

/-- C1: the claim says a subscribe request naming an already-subscribed
room is a silent no-op for that room.  The code disagrees: in
`handle_subscribe` the line `newly_subscribed_rooms.append(room)` runs
unconditionally, outside the `if is_new_sub:` guard, so a re-subscribe
re-sends the `subscribed` confirmation, replays the history and re-sends
the membership update; only the join broadcast is suppressed.  Evaluated
here: connection 1 is already a member of `general` and asks for it
again. -/
theorem c1_resubscribe_is_not_silent :
    handle_subscribe exSt 1 (some ["general"]) =
      (exSt, [(1, .sysSubscribed ["general"]),
              (1, .history "general" [rec0]),
              (1, .roomUpdate "general" ["alice", "bob"]),
              (2, .roomUpdate "general" ["alice", "bob"])]) := by
  decide

/-! ### C2 counterexample -/

/-- C2 counterexample: the claim says a failed history append still lets
the publish broadcast and the session survive.  In the code
`handle_publish` has no exception handling around `append_room_log`, so
the raised error propagates to `handler`'s outer `except Exception`
clause: the loop exits (the session is terminated) and nothing is
broadcast — subscriber 2 never receives the message. -/
theorem c2_failed_append_kills_session :
    handlerStep exSt 1 (.publish "general" "hi" 7 false) = .stop exSt [] ∧
    (handlerStep exSt 1 (.publish "general" "hi" 7 false)).sends.count
        (2, Payload.msg ⟨"general", some "alice", "hi", 7⟩) = 0 := by
  decide

/-! ### C6 counterexample -/

/-- C6 counterexample: for `n = 0` the claim demands at most 0 records,
but Python's `lines[-0:]` is the whole file, so `tail_room_log` returns
every well-formed record. -/
theorem c6_tail_zero_not_bounded :
    ¬ (tail_room_log exSt.logs "general" 0).length ≤ 0 := by
  decide

/-! ### C8 counterexample -/

/-- C8 counterexample: the claim says an unsubscribe request with an empty
rooms list is reported as a validation error.  `handle_unsubscribe` has no
such check (`data.get("rooms") or []` silently defaults): the request
produces no reply at all and no state change. -/
theorem c8_empty_unsubscribe_silently_dropped :
    handlerStep exSt 1 (.unsubscribe (some [])) = .cont exSt [] ∧
    (handlerStep exSt 1 (.unsubscribe (some []))).sends = [] := by
  decide

/-! ### C3 -/

/-- C3: for a connection with no Registry entry, any decodable action other
than `login` yields exactly one authentication-required error reply, leaves
the whole state (Registry, username set, Room Directory, logs) unchanged,
and keeps the message loop running (`.cont`, the connection is not
dropped). -/
theorem c3_auth_gate (s : ServerState) (ws : Conn) (a : ClientAction)
    (hu : dictGet s.users ws = none) (hl : ∀ u, a ≠ ClientAction.login u)
    (hm : a ≠ ClientAction.malformed) :
    handlerStep s ws a =
      .cont s [(ws, .err "Authentication required. Please log in.")] := by
  have hla : isLoginAction a = false := by
    cases a <;> first
      | rfl
      | exact absurd rfl (hl _)
  unfold handlerStep
  rw [if_neg hm, if_pos ⟨hla, hu⟩]

/-- C3 witness: connection 3 (never logged in) sends a publish to a state
with other users present. -/
theorem c3_auth_gate_witness :
    handlerStep exSt 3 (.publish "general" "hi" 7 true) =
      .cont exSt [(3, .err "Authentication required. Please log in.")] :=
  c3_auth_gate exSt 3 _ (by decide)
    (fun u h => ClientAction.noConfusion h)
    (fun h => ClientAction.noConfusion h)

/-! ### Association-list and set-list lemmas -/

theorem dictGet_eq_none {α β : Type} [DecidableEq α] {l : List (α × β)} {k : α} :
    dictGet l k = none ↔ k ∉ l.map Prod.fst := by
  induction l with
  | nil => simp [dictGet]
  | cons p rest ih =>
    by_cases h : p.1 = k
    · subst h
      simp [dictGet]
    · simp [dictGet, h, ih, Ne.symm h]

theorem dictGet_mem {α β : Type} [DecidableEq α] {l : List (α × β)} {k : α} {v : β}
    (h : dictGet l k = some v) : (k, v) ∈ l := by
  induction l with
  | nil => simp [dictGet] at h
  | cons p rest ih =>
    obtain ⟨a, b⟩ := p
    by_cases hk : a = k
    · subst hk
      simp [dictGet] at h
      subst h
      exact List.mem_cons_self _ _
    · simp [dictGet, hk] at h
      exact List.mem_cons_of_mem _ (ih h)

theorem mem_dictGet {α β : Type} [DecidableEq α] {l : List (α × β)} {k : α} {v : β}
    (hnd : (l.map Prod.fst).Nodup) (h : (k, v) ∈ l) : dictGet l k = some v := by
  induction l with
  | nil => simp at h
  | cons p rest ih =>
    obtain ⟨a, b⟩ := p
    rw [List.map_cons, List.nodup_cons] at hnd
    rcases List.mem_cons.mp h with h1 | h1
    · rw [Prod.mk.injEq] at h1
      obtain ⟨rfl, rfl⟩ := h1
      simp [dictGet]
    · have hk : ¬ a = k := by
        intro hc
        subst hc
        exact hnd.1 (List.mem_map.mpr ⟨(a, v), h1, rfl⟩)
      simp [dictGet, hk]
      exact ih hnd.2 h1

theorem dictSet_not_mem {α β : Type} [DecidableEq α] {l : List (α × β)} {k : α} (v : β)
    (h : k ∉ l.map Prod.fst) : dictSet l k v = l ++ [(k, v)] := by
  induction l with
  | nil => rfl
  | cons p rest ih =>
    rw [List.map_cons, List.mem_cons, not_or] at h
    simp [dictSet, Ne.symm h.1, ih h.2]

theorem dictSet_cons_hit {α β : Type} [DecidableEq α] {rest : List (α × β)} {x k : α}
    {y v : β} (hk : x = k) : dictSet ((x, y) :: rest) k v = (k, v) :: rest := by
  simp [dictSet, hk]

theorem dictSet_cons_miss {α β : Type} [DecidableEq α] {rest : List (α × β)} {x k : α}
    {y : β} (v : β) (hk : ¬ x = k) :
    dictSet ((x, y) :: rest) k v = (x, y) :: dictSet rest k v := by
  simp [dictSet, hk]

theorem keys_dictSet_mem {α β : Type} [DecidableEq α] {l : List (α × β)} {k a : α} {v : β} :
    a ∈ (dictSet l k v).map Prod.fst ↔ a ∈ l.map Prod.fst ∨ a = k := by
  induction l with
  | nil => simp [dictSet]
  | cons p rest ih =>
    obtain ⟨x, y⟩ := p
    by_cases hk : x = k
    · rw [dictSet_cons_hit hk, List.map_cons, List.map_cons]
      subst hk
      simp only [List.mem_cons]
      tauto
    · rw [dictSet_cons_miss v hk, List.map_cons, List.map_cons]
      simp only [List.mem_cons, ih]
      tauto

theorem keys_dictSet_nodup {α β : Type} [DecidableEq α] {l : List (α × β)} {k : α} {v : β}
    (h : (l.map Prod.fst).Nodup) : ((dictSet l k v).map Prod.fst).Nodup := by
  induction l with
  | nil => simp [dictSet]
  | cons p rest ih =>
    obtain ⟨x, y⟩ := p
    rw [List.map_cons, List.nodup_cons] at h
    by_cases hk : x = k
    · rw [dictSet_cons_hit hk, List.map_cons, List.nodup_cons]
      subst hk
      exact h
    · rw [dictSet_cons_miss v hk, List.map_cons, List.nodup_cons]
      refine ⟨fun hmem => ?_, ih h.2⟩
      rcases keys_dictSet_mem.mp hmem with h1 | h1
      · exact h.1 h1
      · exact hk h1

theorem mem_dictSet {α β : Type} [DecidableEq α] {l : List (α × β)} {k a : α} {v b : β}
    (hnd : (l.map Prod.fst).Nodup) :
    (a, b) ∈ dictSet l k v ↔ (a = k ∧ b = v) ∨ ((a, b) ∈ l ∧ a ≠ k) := by
  induction l with
  | nil =>
    rw [show dictSet ([] : List (α × β)) k v = [(k, v)] from rfl]
    constructor
    · intro h1
      rw [List.mem_singleton, Prod.mk.injEq] at h1
      exact Or.inl h1
    · rintro (⟨rfl, rfl⟩ | ⟨h1, h2⟩)
      · exact List.mem_singleton.mpr rfl
      · simp at h1
  | cons p rest ih =>
    obtain ⟨x, y⟩ := p
    rw [List.map_cons, List.nodup_cons] at hnd
    by_cases hk : x = k
    · rw [dictSet_cons_hit hk]
      constructor
      · intro h1
        rcases List.mem_cons.mp h1 with h2 | h2
        · rw [Prod.mk.injEq] at h2
          exact Or.inl h2
        · refine Or.inr ⟨List.mem_cons_of_mem _ h2, fun hc => ?_⟩
          apply hnd.1
          rw [hk]
          exact List.mem_map.mpr ⟨(a, b), h2, hc⟩
      · rintro (⟨rfl, rfl⟩ | ⟨h1, h2⟩)
        · exact List.mem_cons_self _ _
        · rcases List.mem_cons.mp h1 with h3 | h3
          · rw [Prod.mk.injEq] at h3
            exact absurd (h3.1.trans hk) h2
          · exact List.mem_cons_of_mem _ h3
    · rw [dictSet_cons_miss v hk]
      constructor
      · intro h1
        rcases List.mem_cons.mp h1 with h2 | h2
        · rw [Prod.mk.injEq] at h2
          refine Or.inr ⟨?_, fun hc => hk (h2.1 ▸ hc)⟩
          rw [h2.1, h2.2]
          exact List.mem_cons_self _ _
        · rcases (ih hnd.2).mp h2 with h3 | h3
          · exact Or.inl h3
          · exact Or.inr ⟨List.mem_cons_of_mem _ h3.1, h3.2⟩
      · rintro (⟨rfl, rfl⟩ | ⟨h1, h2⟩)
        · exact List.mem_cons_of_mem _ ((ih hnd.2).mpr (Or.inl ⟨rfl, rfl⟩))
        · rcases List.mem_cons.mp h1 with h3 | h3
          · rw [h3]
            exact List.mem_cons_self _ _
          · exact List.mem_cons_of_mem _ ((ih hnd.2).mpr (Or.inr ⟨h3, h2⟩))

theorem dictGet_dictSet_self {α β : Type} [DecidableEq α] {l : List (α × β)} {k : α} {v : β} :
    dictGet (dictSet l k v) k = some v := by
  induction l with
  | nil => simp [dictSet, dictGet]
  | cons p rest ih =>
    obtain ⟨x, y⟩ := p
    by_cases hk : x = k
    · rw [dictSet_cons_hit hk]
      simp [dictGet]
    · rw [dictSet_cons_miss v hk]
      simp only [dictGet, if_neg hk]
      exact ih

theorem dictGet_dictSet_ne {α β : Type} [DecidableEq α] {l : List (α × β)} {k a : α} {v : β}
    (h : a ≠ k) : dictGet (dictSet l k v) a = dictGet l a := by
  induction l with
  | nil =>
    rw [show dictSet ([] : List (α × β)) k v = [(k, v)] from rfl]
    simp only [dictGet]
    rw [if_neg (fun hc : k = a => h hc.symm)]
  | cons p rest ih =>
    obtain ⟨x, y⟩ := p
    by_cases hk : x = k
    · rw [dictSet_cons_hit hk]
      simp only [dictGet]
      rw [if_neg (fun hc : k = a => h hc.symm), if_neg (fun hc : x = a => h (by rw [← hc, hk]))]
    · rw [dictSet_cons_miss v hk]
      simp only [dictGet]
      by_cases ha : x = a
      · rw [if_pos ha, if_pos ha]
      · rw [if_neg ha, if_neg ha]
        exact ih

theorem dictPop_sublist {α β : Type} [DecidableEq α] (l : List (α × β)) (k : α) :
    List.Sublist (dictPop l k) l := by
  induction l with
  | nil => simp [dictPop]
  | cons p rest ih =>
    by_cases hk : p.1 = k
    · simp only [dictPop, if_pos hk]
      exact List.sublist_cons_self p rest
    · simp only [dictPop, if_neg hk]
      exact ih.cons₂ p

theorem mem_dictPop {α β : Type} [DecidableEq α] {l : List (α × β)} {k a : α} {b : β}
    (hnd : (l.map Prod.fst).Nodup) :
    (a, b) ∈ dictPop l k ↔ (a, b) ∈ l ∧ a ≠ k := by
  induction l with
  | nil => simp [dictPop]
  | cons p rest ih =>
    obtain ⟨x, y⟩ := p
    rw [List.map_cons, List.nodup_cons] at hnd
    by_cases hk : x = k
    · rw [show dictPop ((x, y) :: rest) k = rest from by simp [dictPop, hk]]
      constructor
      · intro h1
        refine ⟨List.mem_cons_of_mem _ h1, fun hc => ?_⟩
        apply hnd.1
        rw [hk]
        exact List.mem_map.mpr ⟨(a, b), h1, hc⟩
      · rintro ⟨h1, h2⟩
        rcases List.mem_cons.mp h1 with h3 | h3
        · rw [Prod.mk.injEq] at h3
          exact absurd (h3.1.trans hk) h2
        · exact h3
    · rw [show dictPop ((x, y) :: rest) k = (x, y) :: dictPop rest k from by
        simp [dictPop, hk]]
      constructor
      · intro h1
        rcases List.mem_cons.mp h1 with h2 | h2
        · rw [Prod.mk.injEq] at h2
          refine ⟨?_, fun hc => hk (h2.1 ▸ hc)⟩
          rw [h2.1, h2.2]
          exact List.mem_cons_self _ _
        · obtain ⟨h3, h4⟩ := (ih hnd.2).mp h2
          exact ⟨List.mem_cons_of_mem _ h3, h4⟩
      · rintro ⟨h1, h2⟩
        rcases List.mem_cons.mp h1 with h3 | h3
        · rw [h3]
          exact List.mem_cons_self _ _
        · exact List.mem_cons_of_mem _ ((ih hnd.2).mpr ⟨h3, h2⟩)

theorem dictGet_dictPop_self {α β : Type} [DecidableEq α] {l : List (α × β)} {k : α}
    (hnd : (l.map Prod.fst).Nodup) : dictGet (dictPop l k) k = none := by
  rw [dictGet_eq_none]
  intro hmem
  obtain ⟨⟨a, b⟩, hab, heq⟩ := List.mem_map.mp hmem
  simp only at heq
  subst heq
  exact ((mem_dictPop hnd).mp hab).2 rfl

theorem dictGet_dictPop_ne {α β : Type} [DecidableEq α] {l : List (α × β)} {k a : α}
    (h : a ≠ k) : dictGet (dictPop l k) a = dictGet l a := by
  induction l with
  | nil => rfl
  | cons p rest ih =>
    obtain ⟨x, y⟩ := p
    by_cases hk : x = k
    · rw [show dictPop ((x, y) :: rest) k = rest from by simp [dictPop, hk]]
      simp only [dictGet]
      rw [if_neg (fun hc : x = a => h (by rw [← hc, hk]))]
    · rw [show dictPop ((x, y) :: rest) k = (x, y) :: dictPop rest k from by
        simp [dictPop, hk]]
      simp only [dictGet]
      by_cases ha : x = a
      · rw [if_pos ha, if_pos ha]
      · rw [if_neg ha, if_neg ha]
        exact ih

theorem mem_setAdd {α : Type} [DecidableEq α] {l : List α} {a b : α} :
    a ∈ setAdd l b ↔ a ∈ l ∨ a = b := by
  unfold setAdd
  by_cases h : b ∈ l
  · rw [if_pos h]
    constructor
    · exact Or.inl
    · rintro (h1 | h1)
      · exact h1
      · exact h1 ▸ h
  · rw [if_neg h]
    simp

theorem nodup_setAdd {α : Type} [DecidableEq α] {l : List α} {b : α}
    (h : l.Nodup) : (setAdd l b).Nodup := by
  unfold setAdd
  by_cases hb : b ∈ l
  · rw [if_pos hb]
    exact h
  · rw [if_neg hb]
    refine List.Nodup.append h (List.nodup_singleton b) ?_
    intro a ha hab
    rw [List.mem_singleton] at hab
    subst hab
    exact hb ha

theorem setAdd_ne_nil {α : Type} [DecidableEq α] (l : List α) (b : α) :
    setAdd l b ≠ [] := by
  unfold setAdd
  by_cases hb : b ∈ l
  · rw [if_pos hb]
    exact List.ne_nil_of_mem hb
  · rw [if_neg hb]
    simp

/-! ### Well-formedness preservation -/

theorem stateWF_handle_login (s : ServerState) (ws : Conn) (u : String)
    (h : stateWF s) (hws : dictGet s.users ws = none) :
    stateWF (handle_login s ws u).1 := by
  obtain ⟨h1, h2, h3, h4, h5, h6, h7⟩ := h
  by_cases he : pyStrip u = ""
  · simp only [handle_login]
    rw [if_pos he]
    exact ⟨h1, h2, h3, h4, h5, h6, h7⟩
  · by_cases ht : pyStrip u ∈ s.usernames
    · simp only [handle_login]
      rw [if_neg he, if_pos ht]
      exact ⟨h1, h2, h3, h4, h5, h6, h7⟩
    · have hkeys : ws ∉ s.users.map Prod.fst := dictGet_eq_none.mp hws
      have husers : dictSet s.users ws (pyStrip u) = s.users ++ [(ws, pyStrip u)] :=
        dictSet_not_mem _ hkeys
      have hset : setAdd s.usernames (pyStrip u) = s.usernames ++ [pyStrip u] := by
        unfold setAdd
        rw [if_neg ht]
      have hvals : pyStrip u ∉ s.users.map Prod.snd := by
        intro hc
        obtain ⟨p, hp, hpe⟩ := List.mem_map.mp hc
        exact ht (hpe ▸ (h5 p hp).1)
      simp only [handle_login]
      rw [if_neg he, if_neg ht]
      refine ⟨?_, ?_, ?_, ?_, ?_, h6, ?_⟩
      · simp only [hset]
        refine List.Nodup.append h1 (List.nodup_singleton _) ?_
        intro a ha hab
        rw [List.mem_singleton] at hab
        exact ht (hab ▸ ha)
      · simp only [husers, List.map_append]
        refine List.Nodup.append h2 (by simp) ?_
        intro a ha hab
        simp at hab
        exact hkeys (hab ▸ ha)
      · simp only [husers, List.map_append]
        refine List.Nodup.append h3 (by simp) ?_
        intro a ha hab
        simp at hab
        exact hvals (hab ▸ ha)
      · intro x hx
        simp only [hset, husers, List.map_append, List.mem_append] at hx ⊢
        rcases hx with hx | hx
        · exact Or.inl (h4 x hx)
        · simp at hx
          simp [hx]
      · intro p hp
        simp only [husers, List.mem_append] at hp
        rcases hp with hp | hp
        · obtain ⟨hmem, hne⟩ := h5 p hp
          refine ⟨?_, hne⟩
          simp only [hset, List.mem_append]
          exact Or.inl hmem
        · rw [List.mem_singleton] at hp
          subst hp
          refine ⟨?_, he⟩
          simp only [hset, List.mem_append]
          simp
      · intro p hp
        obtain ⟨hne, hnd, hsub⟩ := h7 p hp
        refine ⟨hne, hnd, fun c hc => ?_⟩
        simp only [husers, List.map_append, List.mem_append]
        exact Or.inl (hsub c hc)

theorem subFold_wf (ws : Conn) (username : String)
    (acc : ServerState × List Send × List String) (r : String)
    (h : stateWF acc.1) (hmem : ws ∈ acc.1.users.map Prod.fst) :
    stateWF (subFold ws username acc r).1 ∧
    (subFold ws username acc r).1.users = acc.1.users ∧
    (subFold ws username acc r).1.usernames = acc.1.usernames ∧
    (subFold ws username acc r).1.logs = acc.1.logs := by
  by_cases hb : pyStrip r = ""
  · simp only [subFold]
    rw [if_pos hb]
    exact ⟨h, rfl, rfl, rfl⟩
  · simp only [subFold]
    rw [if_neg hb]
    refine ⟨?_, rfl, rfl, rfl⟩
    obtain ⟨h1, h2, h3, h4, h5, h6, h7⟩ := h
    refine ⟨h1, h2, h3, h4, h5, keys_dictSet_nodup h6, ?_⟩
    intro p hp
    obtain ⟨a, b⟩ := p
    rw [mem_dictSet h6] at hp
    rcases hp with ⟨hpk, hpv⟩ | ⟨hp, hne⟩
    · subst hpv
      have hmems : ∀ c ∈ roomMembers acc.1 (pyStrip r),
          c ∈ acc.1.users.map Prod.fst ∧ True := by
        intro c hc
        unfold roomMembers at hc
        cases hg : dictGet acc.1.rooms (pyStrip r) with
        | none => rw [hg] at hc; simp at hc
        | some subs =>
          rw [hg] at hc
          simp only [Option.getD_some] at hc
          exact ⟨(h7 _ (dictGet_mem hg)).2.2 c hc, trivial⟩
      have hmnd : (roomMembers acc.1 (pyStrip r)).Nodup := by
        unfold roomMembers
        cases hg : dictGet acc.1.rooms (pyStrip r) with
        | none => simp
        | some subs =>
          simp only [Option.getD_some]
          exact (h7 _ (dictGet_mem hg)).2.1
      refine ⟨setAdd_ne_nil _ _, nodup_setAdd hmnd, fun c hc => ?_⟩
      rcases mem_setAdd.mp hc with hc | hc
      · exact (hmems c hc).1
      · exact hc ▸ hmem
    · exact h7 _ hp

theorem subFold_foldl_wf (ws : Conn) (username : String) (rooms : List String) :
    ∀ acc : ServerState × List Send × List String,
      stateWF acc.1 → ws ∈ acc.1.users.map Prod.fst →
      stateWF (rooms.foldl (subFold ws username) acc).1 ∧
      (rooms.foldl (subFold ws username) acc).1.users = acc.1.users ∧
      (rooms.foldl (subFold ws username) acc).1.usernames = acc.1.usernames ∧
      (rooms.foldl (subFold ws username) acc).1.logs = acc.1.logs := by
  induction rooms with
  | nil =>
    intro acc h hmem
    exact ⟨h, rfl, rfl, rfl⟩
  | cons r rest ih =>
    intro acc h hmem
    rw [List.foldl_cons]
    obtain ⟨hs, hu, hn, hl⟩ := subFold_wf ws username acc r h hmem
    obtain ⟨ih1, ih2, ih3, ih4⟩ := ih (subFold ws username acc r) hs (by rw [hu]; exact hmem)
    exact ⟨ih1, ih2.trans hu, ih3.trans hn, ih4.trans hl⟩

theorem stateWF_handle_subscribe (s : ServerState) (ws : Conn)
    (rs : Option (List String)) (h : stateWF s) :
    stateWF (handle_subscribe s ws rs).1 := by
  unfold handle_subscribe
  split
  · exact h
  · split
    · exact h
    · rename_i username heq
      have hmem : ws ∈ s.users.map Prod.fst :=
        List.mem_map.mpr ⟨(ws, username), dictGet_mem heq, rfl⟩
      exact (subFold_foldl_wf ws username _ (s, [], []) h hmem).1

theorem unsubFold_wf (ws : Conn) (username : String)
    (acc : ServerState × List Send × List String) (room : String)
    (h : stateWF acc.1) :
    stateWF (unsubFold ws username acc room).1 ∧
    (unsubFold ws username acc room).1.users = acc.1.users ∧
    (unsubFold ws username acc room).1.usernames = acc.1.usernames ∧
    (unsubFold ws username acc room).1.logs = acc.1.logs := by
  obtain ⟨h1, h2, h3, h4, h5, h6, h7⟩ := h
  cases hg : dictGet acc.1.rooms room with
  | none =>
    have hred : unsubFold ws username acc room = acc := by
      simp only [unsubFold, hg]
    rw [hred]
    exact ⟨⟨h1, h2, h3, h4, h5, h6, h7⟩, rfl, rfl, rfl⟩
  | some subs =>
    by_cases hw : ws ∈ subs
    · have hred : (unsubFold ws username acc room).1 =
        { acc.1 with rooms := if subs.erase ws = [] then dictPop acc.1.rooms room
                              else dictSet acc.1.rooms room (subs.erase ws) } := by
        simp only [unsubFold, hg]
        rw [if_pos hw]
      refine ⟨?_, by rw [hred], by rw [hred], by rw [hred]⟩
      rw [hred]
      by_cases hemp : subs.erase ws = []
      · rw [if_pos hemp]
        refine ⟨h1, h2, h3, h4, h5, ?_, ?_⟩
        · exact ((dictPop_sublist acc.1.rooms room).map Prod.fst).nodup h6
        · intro p hp
          obtain ⟨a, b⟩ := p
          exact h7 _ ((mem_dictPop h6).mp hp).1
      · rw [if_neg hemp]
        refine ⟨h1, h2, h3, h4, h5, keys_dictSet_nodup h6, ?_⟩
        intro p hp
        obtain ⟨a, b⟩ := p
        rcases (mem_dictSet h6).mp hp with ⟨hpk, hpv⟩ | ⟨hp2, _⟩
        · subst hpv
          refine ⟨hemp, List.Nodup.erase ws (h7 _ (dictGet_mem hg)).2.1,
            fun c hc => ?_⟩
          exact (h7 _ (dictGet_mem hg)).2.2 c (List.mem_of_mem_erase hc)
        · exact h7 _ hp2
    · have hred : unsubFold ws username acc room = acc := by
        simp only [unsubFold, hg]
        rw [if_neg hw]
      rw [hred]
      exact ⟨⟨h1, h2, h3, h4, h5, h6, h7⟩, rfl, rfl, rfl⟩

theorem unsubFold_foldl_wf (ws : Conn) (username : String) (rooms : List String) :
    ∀ acc : ServerState × List Send × List String,
      stateWF acc.1 →
      stateWF (rooms.foldl (unsubFold ws username) acc).1 ∧
      (rooms.foldl (unsubFold ws username) acc).1.users = acc.1.users ∧
      (rooms.foldl (unsubFold ws username) acc).1.usernames = acc.1.usernames ∧
      (rooms.foldl (unsubFold ws username) acc).1.logs = acc.1.logs := by
  induction rooms with
  | nil =>
    intro acc h
    exact ⟨h, rfl, rfl, rfl⟩
  | cons r rest ih =>
    intro acc h
    rw [List.foldl_cons]
    obtain ⟨hs, hu, hn, hl⟩ := unsubFold_wf ws username acc r h
    obtain ⟨ih1, ih2, ih3, ih4⟩ := ih (unsubFold ws username acc r) hs
    exact ⟨ih1, ih2.trans hu, ih3.trans hn, ih4.trans hl⟩

theorem stateWF_handle_unsubscribe (s : ServerState) (ws : Conn)
    (rs : Option (List String)) (h : stateWF s) :
    stateWF (handle_unsubscribe s ws rs).1 := by
  unfold handle_unsubscribe
  split
  · exact h
  · exact (unsubFold_foldl_wf ws _ _ (s, [], []) h).1

theorem stateWF_handle_publish (apOk : Bool) (s : ServerState) (ws : Conn)
    (r m : String) (ts : Nat) (res : ServerState × List Send) (h : stateWF s)
    (heq : handle_publish apOk s ws r m ts = .ok res) : stateWF res.1 := by
  simp only [handle_publish] at heq
  by_cases hv : pyStrip r = "" ∨ pyStrip m = ""
  · rw [if_pos hv, Except.ok.injEq] at heq
    subst heq
    exact h
  · rw [if_neg hv] at heq
    cases apOk with
    | true =>
      rw [if_pos rfl, Except.ok.injEq] at heq
      subst heq
      obtain ⟨h1, h2, h3, h4, h5, h6, h7⟩ := h
      exact ⟨h1, h2, h3, h4, h5, h6, h7⟩
    | false =>
      rw [if_neg Bool.false_ne_true] at heq
      exact Except.noConfusion heq

theorem keys_dictPop_mem {α β : Type} [DecidableEq α] {l : List (α × β)} {k a : α}
    (hnd : (l.map Prod.fst).Nodup) (ha : a ∈ l.map Prod.fst) (hne : a ≠ k) :
    a ∈ (dictPop l k).map Prod.fst := by
  obtain ⟨⟨x, b⟩, hx, heq⟩ := List.mem_map.mp ha
  refine List.mem_map.mpr ⟨(x, b), (mem_dictPop hnd).mpr ⟨hx, ?_⟩, heq⟩
  intro hc
  exact hne (by rw [← heq, hc])

theorem stateWF_disconnect (s : ServerState) (ws : Conn) (h : stateWF s) :
    stateWF (disconnect s ws).1 := by
  obtain ⟨h1, h2, h3, h4, h5, h6, h7⟩ := h
  cases hg : dictGet s.users ws with
  | none =>
    have hred : disconnect s ws = (s, []) := by
      simp only [disconnect, hg]
    rw [hred]
    exact ⟨h1, h2, h3, h4, h5, h6, h7⟩
  | some username =>
    have hne : username ≠ "" := (h5 _ (dictGet_mem hg)).2
    have hred : (disconnect s ws).1 =
      { users := dictPop s.users ws,
        usernames := s.usernames.erase username,
        rooms := (s.rooms.map (fun p => (p.1, p.2.erase ws))).filter
          (fun p => !p.2.isEmpty),
        logs := s.logs } := by
      simp only [disconnect, hg]
      rw [if_neg hne]
    rw [hred]
    refine ⟨h1.erase _, ((dictPop_sublist s.users ws).map Prod.fst).nodup h2,
      ((dictPop_sublist s.users ws).map Prod.snd).nodup h3, ?_, ?_, ?_, ?_⟩
    · intro u hu
      have hu' : u ∈ s.usernames := List.mem_of_mem_erase hu
      have hneu : u ≠ username := by
        intro hc
        subst hc
        exact h1.not_mem_erase hu
      obtain ⟨⟨a, b⟩, hab, hbe⟩ := List.mem_map.mp (h4 u hu')
      have hane : a ≠ ws := by
        intro hc
        subst hc
        have hbg : dictGet s.users a = some b := mem_dictGet h2 hab
        rw [hg] at hbg
        apply hneu
        rw [← hbe]
        exact (Option.some.inj hbg).symm
      exact List.mem_map.mpr ⟨(a, b), (mem_dictPop h2).mpr ⟨hab, hane⟩, hbe⟩
    · intro p hp
      obtain ⟨a, b⟩ := p
      obtain ⟨hab, hane⟩ := (mem_dictPop h2).mp hp
      obtain ⟨hmem, hbne0⟩ := h5 _ hab
      refine ⟨?_, hbne0⟩
      have hbne : b ≠ username := by
        intro hc
        subst hc
        have := List.inj_on_of_nodup_map h3 hab (dictGet_mem hg) rfl
        exact hane (congrArg Prod.fst this)
      exact (List.mem_erase_of_ne hbne).mpr hmem
    · have hfs : List.Sublist
          ((s.rooms.map (fun p => (p.1, p.2.erase ws))).filter (fun p => !p.2.isEmpty))
          (s.rooms.map (fun p => (p.1, p.2.erase ws))) := List.filter_sublist _
      have hks := hfs.map Prod.fst
      rw [List.map_map] at hks
      exact hks.nodup h6
    · intro p hp
      rw [List.mem_filter] at hp
      obtain ⟨hpm, hpg⟩ := hp
      obtain ⟨q, hq, rfl⟩ := List.mem_map.mp hpm
      obtain ⟨hq1, hq2, hq3⟩ := h7 q hq
      refine ⟨?_, hq2.erase ws, ?_⟩
      · intro hc
        simp only at hpg hc
        rw [hc] at hpg
        simp at hpg
      · intro c hc
        simp only at hc
        have hcq : c ∈ q.2 := List.mem_of_mem_erase hc
        have hcne : c ≠ ws := by
          intro hcw
          subst hcw
          exact hq2.not_mem_erase hc
        exact keys_dictPop_mem h2 (hq3 c hcq) hcne

theorem stateWF_handlerStep (s : ServerState) (ws : Conn) (a : ClientAction)
    (h : stateWF s) : stateWF (handlerStep s ws a).state := by
  unfold handlerStep
  by_cases hm : a = ClientAction.malformed
  · rw [if_pos hm]
    exact h
  · rw [if_neg hm]
    by_cases hg : isLoginAction a = false ∧ dictGet s.users ws = none
    · rw [if_pos hg]
      exact h
    · rw [if_neg hg]
      cases a with
      | login u =>
        dsimp only
        by_cases hs : (dictGet s.users ws).isSome
        · rw [if_pos hs]
          exact h
        · rw [if_neg hs]
          exact stateWF_handle_login s ws u h (Option.not_isSome_iff_eq_none.mp hs)
      | subscribe rs => exact stateWF_handle_subscribe s ws rs h
      | unsubscribe rs => exact stateWF_handle_unsubscribe s ws rs h
      | publish r m ts apOk =>
        dsimp only
        cases hp : handle_publish apOk s ws r m ts with
        | ok res => exact stateWF_handle_publish apOk s ws r m ts res h hp
        | error e => exact h
      | logout => exact h
      | other n => exact h
      | malformed => exact absurd rfl hm

theorem stateWF_applyEvent (s : ServerState) (e : Event) (h : stateWF s) :
    stateWF (applyEvent s e) := by
  cases e with
  | act ws a => exact stateWF_handlerStep s ws a h
  | close ws => exact stateWF_disconnect s ws h

theorem reachable_stateWF {s : ServerState} (h : Reachable s) : stateWF s := by
  induction h with
  | init logs =>
    refine ⟨?_, ?_, ?_, ?_, ?_, ?_, ?_⟩ <;> simp [initState]
  | step e hr ih => exact stateWF_applyEvent _ e ih

theorem stateWF_runLoop (ws : Conn) (acts : List ClientAction) :
    ∀ s : ServerState, stateWF s → stateWF (runLoop ws s acts).1 := by
  induction acts with
  | nil =>
    intro s h
    exact h
  | cons a rest ih =>
    intro s h
    unfold runLoop
    cases hs : handlerStep s ws a with
    | cont s' out =>
      have hw := stateWF_handlerStep s ws a h
      rw [hs] at hw
      exact ih s' hw
    | stop s' out =>
      have hw := stateWF_handlerStep s ws a h
      rw [hs] at hw
      exact hw

/-! ### C4 -/

/-- C4: a login claim succeeds iff the trimmed username is non-empty and
not in the active username set; on success the mapping and the username
are appended, on failure the matching error is reported and the state is
untouched; and in every reachable state a username is in the set iff some
live connection maps to it, and never two distinct live connections map to
the same username. -/
theorem c4_login_claim :
    (∀ (s : ServerState) (ws : Conn) (u : String),
        dictGet s.users ws = none → pyStrip u ≠ "" → pyStrip u ∉ s.usernames →
        handle_login s ws u =
          ({ s with users := s.users ++ [(ws, pyStrip u)],
                    usernames := s.usernames ++ [pyStrip u] },
           [(ws, .ok "login")])) ∧
    (∀ (s : ServerState) (ws : Conn) (u : String),
        pyStrip u = "" →
        handle_login s ws u = (s, [(ws, .errAct "login" "Username required")])) ∧
    (∀ (s : ServerState) (ws : Conn) (u : String),
        pyStrip u ≠ "" → pyStrip u ∈ s.usernames →
        handle_login s ws u = (s, [(ws, .errAct "login" "Username taken")])) ∧
    (∀ s : ServerState, Reachable s →
        (∀ u : String, u ∈ s.usernames ↔ ∃ ws : Conn, dictGet s.users ws = some u) ∧
        (∀ (ws1 ws2 : Conn) (u : String),
            dictGet s.users ws1 = some u → dictGet s.users ws2 = some u →
            ws1 = ws2)) := by
  refine ⟨?_, ?_, ?_, ?_⟩
  · intro s ws u h1 h2 h3
    simp only [handle_login]
    rw [if_neg h2, if_neg h3, dictSet_not_mem _ (dictGet_eq_none.mp h1)]
    unfold setAdd
    rw [if_neg h3]
  · intro s ws u h1
    simp only [handle_login]
    rw [if_pos h1]
  · intro s ws u h1 h2
    simp only [handle_login]
    rw [if_neg h1, if_pos h2]
  · intro s hr
    obtain ⟨h1, h2, h3, h4, h5, h6, h7⟩ := reachable_stateWF hr
    constructor
    · intro u
      constructor
      · intro hu
        obtain ⟨⟨a, b⟩, hab, hbe⟩ := List.mem_map.mp (h4 u hu)
        refine ⟨a, ?_⟩
        rw [mem_dictGet h2 hab]
        exact congrArg some hbe
      · rintro ⟨ws, hws⟩
        exact (h5 _ (dictGet_mem hws)).1
    · intro ws1 ws2 u g1 g2
      have e1 : (ws1, u) ∈ s.users := dictGet_mem g1
      have e2 : (ws2, u) ∈ s.users := dictGet_mem g2
      have := List.inj_on_of_nodup_map h3 e1 e2 rfl
      exact congrArg Prod.fst this

/-- C4 witness: a fresh login, an empty-username rejection, a duplicate
rejection, and the set-membership invariant at a reachable state. -/
theorem c4_login_claim_witness :
    (handle_login (initState []) 1 " alice " =
       ({ initState [] with
            users := (initState []).users ++ [(1, pyStrip " alice ")],
            usernames := (initState []).usernames ++ [pyStrip " alice "] },
        [(1, Payload.ok "login")])) ∧
    (handle_login (initState []) 2 "  " =
       (initState [], [(2, Payload.errAct "login" "Username required")])) ∧
    (handle_login stLogin 2 "alice" =
       (stLogin, [(2, Payload.errAct "login" "Username taken")])) ∧
    "alice" ∈ stLogin.usernames :=
  ⟨c4_login_claim.1 (initState []) 1 " alice " (by decide) (by decide) (by decide),
   c4_login_claim.2.1 (initState []) 2 "  " (by decide),
   c4_login_claim.2.2.1 stLogin 2 "alice" (by decide) (by decide),
   ((c4_login_claim.2.2.2 stLogin
      (Reachable.step _ (Reachable.init []))).1 "alice").mpr ⟨1, by decide⟩⟩

/-! ### C7 -/

/-- C7: in every reachable state the Room Directory holds no room key whose
subscriber set is empty (rooms are created on first subscribe with the
subscriber added, and unsubscribe and disconnect prune entries that become
empty). -/
theorem c7_no_empty_rooms (s : ServerState) (h : Reachable s) :
    ∀ p ∈ s.rooms, p.2 ≠ [] := by
  intro p hp
  exact ((reachable_stateWF h).2.2.2.2.2.2 p hp).1

/-- C7 witness: the reachable state where `alice` subscribed to `general`
has exactly the non-empty entry `("general", [1])`. -/
theorem c7_no_empty_rooms_witness : (("general", [1]) : String × List Conn).2 ≠ [] :=
  c7_no_empty_rooms stSub
    (Reachable.step _ (Reachable.step _ (Reachable.init []))) _ (by decide)

/-! ### C2 amended -/

/-- C2 amended: when the history append raises during a publish, the
exception propagates out of `handle_publish`: nothing is broadcast, the
message loop stops, and the `finally:` cleanup (`disconnect`) runs — the
storage error does terminate the session; any further client messages are
never processed. -/
theorem c2_failed_append_propagates (s : ServerState) (ws : Conn) (u : String)
    (room0 msg0 : String) (ts : Nat) (rest : List ClientAction)
    (hu : dictGet s.users ws = some u)
    (hr : pyStrip room0 ≠ "") (hm : pyStrip msg0 ≠ "") :
    handle_publish false s ws room0 msg0 ts = .error () ∧
    handlerStep s ws (.publish room0 msg0 ts false) = .stop s [] ∧
    handler s ws (.publish room0 msg0 ts false :: rest) = disconnect s ws := by
  have hp : handle_publish false s ws room0 msg0 ts = .error () := by
    simp only [handle_publish]
    rw [if_neg (not_or.mpr ⟨hr, hm⟩), if_neg Bool.false_ne_true]
  have hstep : handlerStep s ws (.publish room0 msg0 ts false) = .stop s [] := by
    unfold handlerStep
    rw [if_neg (fun h => ClientAction.noConfusion h),
        if_neg (fun hc : _ ∧ _ => Option.noConfusion (hu ▸ hc.2))]
    dsimp only
    rw [hp]
  refine ⟨hp, hstep, ?_⟩
  have hrl : runLoop ws s (.publish room0 msg0 ts false :: rest) = (s, []) := by
    unfold runLoop
    rw [hstep]
  unfold handler
  rw [hrl]
  dsimp only
  rw [List.nil_append]

/-- C2 amended witness: in the two-user state, alice's publish with a
failing append yields the propagated error, a stopped loop, and a handler
run equal to plain disconnect. -/
theorem c2_failed_append_propagates_witness :
    handle_publish false exSt 1 "general" "hi" 7 = .error () ∧
    handlerStep exSt 1 (.publish "general" "hi" 7 false) = .stop exSt [] ∧
    handler exSt 1 [.publish "general" "hi" 7 false] = disconnect exSt 1 :=
  c2_failed_append_propagates exSt 1 "alice" "general" "hi" 7 []
    (by decide) (by decide) (by decide)

/-! ### C10 -/

/-- C10: an authenticated connection may publish to any room with
non-empty trimmed name and message, with no membership requirement: the
record is appended to that room's log and sent exactly to the room's
current subscribers, so the publisher hears its own message iff it is
subscribed, and a publish to a room with no subscribers appends the record
while sending nothing. -/
theorem c10_publish_no_membership_requirement (s : ServerState) (ws : Conn)
    (u : String) (room0 msg0 : String) (ts : Nat)
    (hu : dictGet s.users ws = some u)
    (hr : pyStrip room0 ≠ "") (hm : pyStrip msg0 ≠ "") :
    handle_publish true s ws room0 msg0 ts =
      .ok ({ s with logs := (append_room_log s.logs (pyStrip room0)
                     (Record.mk (pyStrip room0) (some u) (pyStrip msg0) ts)) },
           (roomMembers s (pyStrip room0)).map
             (fun m => (m, Payload.msg
                (Record.mk (pyStrip room0) (some u) (pyStrip msg0) ts)))) ∧
    ((ws, Payload.msg (Record.mk (pyStrip room0) (some u) (pyStrip msg0) ts)) ∈
        (roomMembers s (pyStrip room0)).map
          (fun m => (m, Payload.msg
            (Record.mk (pyStrip room0) (some u) (pyStrip msg0) ts))) ↔
      ws ∈ roomMembers s (pyStrip room0)) ∧
    (roomMembers s (pyStrip room0) = [] →
      handle_publish true s ws room0 msg0 ts =
        .ok ({ s with logs := (append_room_log s.logs (pyStrip room0)
                       (Record.mk (pyStrip room0) (some u) (pyStrip msg0) ts)) },
             [])) := by
  have h1 : handle_publish true s ws room0 msg0 ts =
      .ok ({ s with logs := (append_room_log s.logs (pyStrip room0)
                     (Record.mk (pyStrip room0) (some u) (pyStrip msg0) ts)) },
           (roomMembers s (pyStrip room0)).map
             (fun m => (m, Payload.msg
                (Record.mk (pyStrip room0) (some u) (pyStrip msg0) ts)))) := by
    simp only [handle_publish]
    rw [if_neg (not_or.mpr ⟨hr, hm⟩)]
    simp only [if_true]
    rw [hu]
    rfl
  refine ⟨h1, ?_, ?_⟩
  · constructor
    · intro hmem
      obtain ⟨m, hm2, heq⟩ := List.mem_map.mp hmem
      have hme : m = ws := congrArg Prod.fst heq
      exact hme ▸ hm2
    · intro hmem
      exact List.mem_map.mpr ⟨ws, hmem, rfl⟩
  · intro hempty
    rw [h1, hempty]
    rfl

/-- C10 witness: alice publishes to room `lobby`, which has no
subscribers: the record is appended and nothing is sent. -/
theorem c10_publish_witness :
    handle_publish true exSt 1 "lobby" "hey" 9 =
      .ok ({ exSt with logs := (append_room_log exSt.logs (pyStrip "lobby")
                       (Record.mk (pyStrip "lobby") (some "alice") (pyStrip "hey") 9)) },
           []) :=
  (c10_publish_no_membership_requirement exSt 1 "alice" "lobby" "hey" 9
    (by decide) (by decide) (by decide)).2.2 (by decide)

/-! ### C9 -/

/-- C9: the log path keeps only alphanumeric, `-`, `_` characters of the
room name, so distinct room names that agree after stripping share one log
file — a record published to one appears in the tail replayed for the
other — and a room name with no allowed characters maps to `.txt`. -/
theorem c9_log_path_collisions :
    (log_path_for "a b" = log_path_for "ab") ∧
    (∀ r1 r2 : String, r1.data.filter allowedChar = r2.data.filter allowedChar →
        log_path_for r1 = log_path_for r2) ∧
    (∀ (logs : List (String × List Line)) (r1 r2 : String) (rec : Record) (n : Nat),
        log_path_for r1 = log_path_for r2 →
        tail_room_log (append_room_log logs r1 rec) r2 n =
          tail_room_log (append_room_log logs r1 rec) r1 n) ∧
    (∀ (logs : List (String × List Line)) (r1 : String) (rec : Record) (n : Nat),
        1 ≤ n →
        (tail_room_log (append_room_log logs r1 rec) r1 n).getLast? = some rec) ∧
    (∀ room : String, (∀ c ∈ room.data, allowedChar c = false) →
        log_path_for room = ".txt") := by
  refine ⟨by decide, ?_, ?_, ?_, ?_⟩
  · intro r1 r2 h
    unfold log_path_for
    rw [h]
  · intro logs r1 r2 rec n h
    unfold tail_room_log
    rw [← h]
  · intro logs r1 rec n hn
    have hget : dictGet (append_room_log logs r1 rec) (log_path_for r1) =
        some ((dictGet logs (log_path_for r1)).getD [] ++ [Line.json rec]) := by
      unfold append_room_log
      exact dictGet_dictSet_self
    unfold tail_room_log
    rw [hget]
    dsimp only
    have hne : n ≠ 0 := by omega
    rw [if_neg hne]
    set old := (dictGet logs (log_path_for r1)).getD [] with hold
    have hlen : (old ++ [Line.json rec]).length = old.length + 1 := by
      simp
    have hk : (old ++ [Line.json rec]).length - n ≤ old.length := by
      rw [hlen]
      omega
    rw [List.drop_append_of_le_length hk, List.filterMap_append]
    simp only [lineRecord, List.filterMap]
    exact List.getLast?_concat _
  · intro room h
    unfold log_path_for
    rw [List.filter_eq_nil_iff.mpr (by intro a ha; rw [h a ha]; exact Bool.false_ne_true)]
    rfl

/-- C9 witness: `a b` and `ab` share one log file; after appending to
`a b`, the tail for `ab` equals the tail for `a b` and ends with the new
record; `!?` maps to `.txt`. -/
theorem c9_log_path_collisions_witness :
    (tail_room_log (append_room_log [] "a b" rec0) "ab" 1 =
       tail_room_log (append_room_log [] "a b" rec0) "a b" 1) ∧
    ((tail_room_log (append_room_log [] "a b" rec0) "a b" 1).getLast? = some rec0) ∧
    (log_path_for "!?" = ".txt") :=
  ⟨c9_log_path_collisions.2.2.1 [] "a b" "ab" rec0 1 (by decide),
   c9_log_path_collisions.2.2.2.1 [] "a b" rec0 1 (by decide),
   c9_log_path_collisions.2.2.2.2 "!?" (by decide)⟩

/-! ### C6 amended -/

theorem filterMap_lineRecord_json (l : List Record) :
    (l.map Line.json).filterMap lineRecord = l := by
  induction l with
  | nil => rfl
  | cons a rest ih => simp [lineRecord, ih]

/-- C6 amended: for every room and every `n ≥ 1`, `tail_room_log` returns
the empty sequence when the room has no log file, at most `n` records, a
suffix (hence the most recent, oldest-first) of the well-formed records of
the file, skipping malformed lines without failing; appends go to the end
of the room's file; and with more than 50 well-formed records on file the
`n = 50` replay used by `handle_subscribe` is exactly the 50 most recent
in publish order, and the subscriber is sent exactly that list.  (For
`n = 0` the claim fails: Python's `lines[-0:]` is the whole file.) -/
theorem c6_tail_bounded_suffix :
    (∀ (logs : List (String × List Line)) (room : String) (n : Nat),
        dictGet logs (log_path_for room) = none → tail_room_log logs room n = []) ∧
    (∀ (logs : List (String × List Line)) (room : String) (n : Nat),
        1 ≤ n → (tail_room_log logs room n).length ≤ n) ∧
    (∀ (logs : List (String × List Line)) (room : String) (n : Nat)
        (lines : List Line),
        dictGet logs (log_path_for room) = some lines →
        (tail_room_log logs room n).IsSuffix (lines.filterMap lineRecord)) ∧
    (∀ (logs : List (String × List Line)) (room : String) (rec : Record),
        dictGet (append_room_log logs room rec) (log_path_for room) =
          some ((dictGet logs (log_path_for room)).getD [] ++ [Line.json rec])) ∧
    (∀ (logs : List (String × List Line)) (room : String) (recs : List Record),
        dictGet logs (log_path_for room) = some (recs.map Line.json) →
        50 < recs.length →
        tail_room_log logs room 50 = recs.drop (recs.length - 50) ∧
        (recs.drop (recs.length - 50)).length = 50) ∧
    (∀ (s : ServerState) (ws : Conn) (u room : String),
        dictGet s.users ws = some u → pyStrip room = room → room ≠ "" →
        ws ∉ roomMembers s room → tail_room_log s.logs room 50 ≠ [] →
        (ws, Payload.history room (tail_room_log s.logs room 50)) ∈
          (handle_subscribe s ws (some [room])).2) := by
  refine ⟨?_, ?_, ?_, ?_, ?_, ?_⟩
  · intro logs room n h
    unfold tail_room_log
    rw [h]
  · intro logs room n hn
    unfold tail_room_log
    cases hg : dictGet logs (log_path_for room) with
    | none => simp
    | some lines =>
      dsimp only
      rw [if_neg (by omega : n ≠ 0)]
      calc (List.filterMap lineRecord (lines.drop (lines.length - n))).length
          ≤ (lines.drop (lines.length - n)).length :=
            List.length_filterMap_le _ _
        _ ≤ n := by
            rw [List.length_drop]
            omega
  · intro logs room n lines hg
    unfold tail_room_log
    rw [hg]
    dsimp only
    by_cases hn : n = 0
    · rw [if_pos hn]
    · rw [if_neg hn]
      obtain ⟨t, ht⟩ := List.drop_suffix (lines.length - n) lines
      exact ⟨t.filterMap lineRecord, by rw [← List.filterMap_append, ht]⟩
  · intro logs room rec
    unfold append_room_log
    exact dictGet_dictSet_self
  · intro logs room recs hg hlen
    unfold tail_room_log
    rw [hg]
    dsimp only
    rw [if_neg (by omega : (50 : Nat) ≠ 0)]
    constructor
    · rw [List.length_map, ← List.map_drop, filterMap_lineRecord_json]
    · rw [List.length_drop]
      omega
  · intro s ws u room hu hps hroom hnm hne
    unfold handle_subscribe
    rw [hu]
    simp only [Option.getD_some]
    rw [List.foldl_cons, List.foldl_nil]
    simp only [subFold, hps]
    rw [if_neg hroom]
    dsimp only
    simp only [List.nil_append, List.flatMap_cons, List.flatMap_nil, List.append_nil]
    rw [if_neg hne]
    simp [List.mem_append]

/-- C6 amended witness: no-log room, the 50-bound, the exactly-50 replay
out of 51 records, and the history send to a fresh subscriber. -/
theorem c6_tail_bounded_suffix_witness :
    tail_room_log [] "x" 3 = [] ∧
    (tail_room_log exLogs51 "news" 50).length ≤ 50 ∧
    (tail_room_log exLogs51 "news" 50 = exRecs.drop (exRecs.length - 50) ∧
      (exRecs.drop (exRecs.length - 50)).length = 50) ∧
    (1, Payload.history "news" (tail_room_log stNews.logs "news" 50)) ∈
      (handle_subscribe stNews 1 (some ["news"])).2 :=
  ⟨c6_tail_bounded_suffix.1 [] "x" 3 (by decide),
   c6_tail_bounded_suffix.2.1 exLogs51 "news" 50 (by decide),
   c6_tail_bounded_suffix.2.2.2.2.1 exLogs51 "news" exRecs (by decide) (by decide),
   c6_tail_bounded_suffix.2.2.2.2.2 stNews 1 "alice" "news" (by decide) (by decide)
     (by decide) (by decide) (by decide)⟩

/-! ### Payload shape lemmas for the send lists -/

theorem mem_broadcast {s : ServerState} {room : String} {p : Payload}
    {e : Option Conn} {q : Send} (h : q ∈ broadcast s room p e) : q.2 = p := by
  simp only [broadcast] at h
  obtain ⟨t, ht, heq⟩ := List.mem_map.mp h
  rw [← heq]

theorem mem_broadcast_room_update {s : ServerState} {room : String} {q : Send}
    (h : q ∈ broadcast_room_update s room) :
    ∃ ul, q.2 = Payload.roomUpdate room ul := by
  unfold broadcast_room_update at h
  split at h
  · exact absurd h (List.not_mem_nil q)
  · exact ⟨memberNames s room, mem_broadcast h⟩

theorem subFold_sends (ws : Conn) (u : String) (rooms : List String) :
    ∀ acc, ∀ q ∈ (rooms.foldl (subFold ws u) acc).2.1,
      q ∈ acc.2.1 ∨ ∃ r, q.2 = Payload.sysJoin r u := by
  induction rooms with
  | nil =>
    intro acc q h
    exact Or.inl h
  | cons r rest ih =>
    intro acc q h
    rw [List.foldl_cons] at h
    rcases ih _ q h with h1 | h1
    · by_cases hb : pyStrip r = ""
      · left
        simp only [subFold] at h1
        rwa [if_pos hb] at h1
      · simp only [subFold] at h1
        rw [if_neg hb] at h1
        dsimp only at h1
        by_cases hn : ws ∉ roomMembers acc.1 (pyStrip r)
        · rw [if_pos hn] at h1
          rcases List.mem_append.mp h1 with h2 | h2
          · exact Or.inl h2
          · exact Or.inr ⟨pyStrip r, mem_broadcast h2⟩
        · rw [if_neg hn] at h1
          exact Or.inl h1
    · exact Or.inr h1

theorem unsubFold_sends (ws : Conn) (u : String) (rooms : List String) :
    ∀ acc, ∀ q ∈ (rooms.foldl (unsubFold ws u) acc).2.1,
      q ∈ acc.2.1 ∨ (∃ r, q.2 = Payload.sysLeave r u) ∨
        (∃ r ul, q.2 = Payload.roomUpdate r ul) := by
  induction rooms with
  | nil =>
    intro acc q h
    exact Or.inl h
  | cons r rest ih =>
    intro acc q h
    rw [List.foldl_cons] at h
    rcases ih _ q h with h1 | h1
    · cases hg : dictGet acc.1.rooms r with
      | none =>
        left
        simpa only [unsubFold, hg] using h1
      | some subs =>
        simp only [unsubFold, hg] at h1
        by_cases hw : ws ∈ subs
        · rw [if_pos hw] at h1
          dsimp only at h1
          rcases List.mem_append.mp h1 with h2 | h2
          · rcases List.mem_append.mp h2 with h3 | h3
            · exact Or.inl h3
            · exact Or.inr (Or.inl ⟨r, mem_broadcast h3⟩)
          · obtain ⟨ul, hul⟩ := mem_broadcast_room_update h2
            exact Or.inr (Or.inr ⟨r, ul, hul⟩)
        · rw [if_neg hw] at h1
          exact Or.inl h1
    · exact Or.inr h1

theorem handle_subscribe_sends_shape (s : ServerState) (ws : Conn)
    (rs : Option (List String)) :
    ∀ q ∈ (handle_subscribe s ws rs).2,
      q = (ws, Payload.errAct "subscribe" "rooms list required") ∨
      (∃ r u', q.2 = Payload.sysJoin r u') ∨
      (∃ rl, q = (ws, Payload.sysSubscribed rl)) ∨
      (∃ r msgs, q = (ws, Payload.history r msgs)) ∨
      (∃ r ul, q.2 = Payload.roomUpdate r ul) := by
  intro q hq
  unfold handle_subscribe at hq
  split at hq
  · rw [List.mem_singleton] at hq
    exact Or.inl hq
  · split at hq
    · exact absurd hq (List.not_mem_nil q)
    · rename_i username heq
      dsimp only at hq
      rcases List.mem_append.mp hq with h1 | h1
      · rcases List.mem_append.mp h1 with h2 | h2
        · rcases subFold_sends ws username _ (s, [], []) q h2 with h3 | h3
          · exact absurd h3 (List.not_mem_nil q)
          · exact Or.inr (Or.inl ⟨h3.choose, username, h3.choose_spec⟩)
        · split at h2
          · exact absurd h2 (List.not_mem_nil q)
          · rw [List.mem_singleton] at h2
            exact Or.inr (Or.inr (Or.inl ⟨_, h2⟩))
      · obtain ⟨r, hr, hqr⟩ := List.mem_flatMap.mp h1
        rcases List.mem_append.mp hqr with h2 | h2
        · split at h2
          · exact absurd h2 (List.not_mem_nil q)
          · rw [List.mem_singleton] at h2
            exact Or.inr (Or.inr (Or.inr (Or.inl ⟨_, _, h2⟩)))
        · obtain ⟨ul, hul⟩ := mem_broadcast_room_update h2
          exact Or.inr (Or.inr (Or.inr (Or.inr ⟨r, ul, hul⟩)))

theorem handle_unsubscribe_sends_shape (s : ServerState) (ws : Conn)
    (rs : Option (List String)) :
    ∀ q ∈ (handle_unsubscribe s ws rs).2,
      (∃ r u', q.2 = Payload.sysLeave r u') ∨
      (∃ r ul, q.2 = Payload.roomUpdate r ul) ∨
      (∃ rl, q = (ws, Payload.sysUnsubscribed rl)) := by
  intro q hq
  unfold handle_unsubscribe at hq
  split at hq
  · exact absurd hq (List.not_mem_nil q)
  · rename_i username heq
    dsimp only at hq
    rcases List.mem_append.mp hq with h1 | h1
    · rcases unsubFold_sends ws username _ (s, [], []) q h1 with h2 | h2 | h2
      · exact absurd h2 (List.not_mem_nil q)
      · exact Or.inl ⟨h2.choose, username, h2.choose_spec⟩
      · exact Or.inr (Or.inl h2)
    · split at h1
      · exact absurd h1 (List.not_mem_nil q)
      · rw [List.mem_singleton] at h1
        exact Or.inr (Or.inr ⟨_, h1⟩)

theorem handle_login_sends (s : ServerState) (ws : Conn) (u : String) :
    ∃ pl, (handle_login s ws u).2 = [(ws, pl)] := by
  simp only [handle_login]
  split
  · exact ⟨_, rfl⟩
  · split
    · exact ⟨_, rfl⟩
    · exact ⟨_, rfl⟩

theorem handle_subscribe_sends_err (s : ServerState) (ws : Conn)
    (rs : Option (List String)) :
    (handle_subscribe s ws rs).2 =
        [(ws, Payload.errAct "subscribe" "rooms list required")] ∨
      ∀ q ∈ (handle_subscribe s ws rs).2, isErrPayload q.2 = false := by
  unfold handle_subscribe
  split
  · exact Or.inl rfl
  · split
    · exact Or.inr (fun q hq => absurd hq (List.not_mem_nil q))
    · rename_i username heq
      right
      intro q hq
      dsimp only at hq
      rcases List.mem_append.mp hq with h1 | h1
      · rcases List.mem_append.mp h1 with h2 | h2
        · rcases subFold_sends ws username _ (s, [], []) q h2 with h3 | h3
          · exact absurd h3 (List.not_mem_nil q)
          · obtain ⟨r, hr⟩ := h3
            rw [hr]
            rfl
        · split at h2
          · exact absurd h2 (List.not_mem_nil q)
          · rw [List.mem_singleton] at h2
            rw [h2]
            rfl
      · obtain ⟨r, hrm, hqr⟩ := List.mem_flatMap.mp h1
        rcases List.mem_append.mp hqr with h2 | h2
        · split at h2
          · exact absurd h2 (List.not_mem_nil q)
          · rw [List.mem_singleton] at h2
            rw [h2]
            rfl
        · obtain ⟨ul, hul⟩ := mem_broadcast_room_update h2
          rw [hul]
          rfl

theorem handle_unsubscribe_sends_err (s : ServerState) (ws : Conn)
    (rs : Option (List String)) :
    ∀ q ∈ (handle_unsubscribe s ws rs).2, isErrPayload q.2 = false := by
  intro q hq
  rcases handle_unsubscribe_sends_shape s ws rs q hq with h | h | h
  · obtain ⟨r, u', hr⟩ := h
    rw [hr]
    rfl
  · obtain ⟨r, ul, hr⟩ := h
    rw [hr]
    rfl
  · obtain ⟨rl, hr⟩ := h
    rw [hr]
    rfl

theorem handle_publish_sends_err (apOk : Bool) (s : ServerState) (ws : Conn)
    (r m : String) (ts : Nat) (res : ServerState × List Send)
    (heq : handle_publish apOk s ws r m ts = .ok res) :
    res.2 = [(ws, Payload.errAct "publish" "room and message required")] ∨
      ∀ q ∈ res.2, isErrPayload q.2 = false := by
  simp only [handle_publish] at heq
  by_cases hv : pyStrip r = "" ∨ pyStrip m = ""
  · rw [if_pos hv, Except.ok.injEq] at heq
    subst heq
    exact Or.inl rfl
  · rw [if_neg hv] at heq
    cases apOk with
    | true =>
      rw [if_pos rfl, Except.ok.injEq] at heq
      subst heq
      right
      intro q hq
      dsimp only at hq
      rw [mem_broadcast hq]
      rfl
    | false =>
      rw [if_neg Bool.false_ne_true] at heq
      exact Except.noConfusion heq

theorem countP_err_singleton (x : Conn) (pl : Payload) :
    (([(x, pl)] : List Send).countP (fun p => isErrPayload p.2)) ≤ 1 := by
  by_cases h : isErrPayload pl = true <;>
    simp [List.countP_cons, List.countP_nil, h]

theorem countP_err_zero (l : List Send)
    (h : ∀ p ∈ l, isErrPayload p.2 = false) :
    (l.countP (fun p => isErrPayload p.2)) = 0 := by
  rw [List.countP_eq_zero]
  intro a ha
  simp [h a ha]

/-! ### C8 amended -/

/-- C8 amended: every processed action yields at most one error reply, and
error replies go only to the requesting connection; but an unsubscribe
request with an empty rooms list is silently dropped — no reply of any
kind and no state change — while only subscribe validates an empty rooms
list with an error. -/
theorem c8_error_discipline :
    (∀ (s : ServerState) (ws : Conn) (a : ClientAction),
        ((handlerStep s ws a).sends.countP (fun p => isErrPayload p.2)) ≤ 1 ∧
        ∀ p ∈ (handlerStep s ws a).sends, isErrPayload p.2 = true → p.1 = ws) ∧
    (∀ (s : ServerState) (ws : Conn) (u : String),
        dictGet s.users ws = some u →
        handlerStep s ws (.unsubscribe (some [])) = .cont s [] ∧
        handlerStep s ws (.subscribe (some [])) =
          .cont s [(ws, .errAct "subscribe" "rooms list required")]) := by
  have hsingle : ∀ (x : Conn) (pl : Payload),
      (([(x, pl)] : List Send).countP (fun p => isErrPayload p.2)) ≤ 1 ∧
      ∀ p ∈ ([(x, pl)] : List Send), isErrPayload p.2 = true → p.1 = x := by
    intro x pl
    refine ⟨countP_err_singleton x pl, ?_⟩
    intro p hp _
    rw [List.mem_singleton] at hp
    rw [hp]
  have hzero : ∀ (x : Conn) (l : List Send),
      (∀ p ∈ l, isErrPayload p.2 = false) →
      (l.countP (fun p => isErrPayload p.2)) ≤ 1 ∧
      ∀ p ∈ l, isErrPayload p.2 = true → p.1 = x := by
    intro x l hf
    constructor
    · rw [countP_err_zero _ hf]
      omega
    · intro p hp ht
      rw [hf p hp] at ht
      exact Bool.noConfusion ht
  constructor
  · intro s ws a
    unfold handlerStep
    by_cases hm : a = ClientAction.malformed
    · rw [if_pos hm]
      exact hsingle ws _
    · rw [if_neg hm]
      by_cases hg : isLoginAction a = false ∧ dictGet s.users ws = none
      · rw [if_pos hg]
        exact hsingle ws _
      · rw [if_neg hg]
        cases a with
        | login u =>
          dsimp only
          by_cases hs : (dictGet s.users ws).isSome
          · rw [if_pos hs]
            exact hsingle ws _
          · rw [if_neg hs]
            dsimp only [StepResult.sends]
            obtain ⟨pl, hpl⟩ := handle_login_sends s ws u
            rw [hpl]
            exact hsingle ws pl
        | subscribe rs =>
          dsimp only [StepResult.sends]
          rcases handle_subscribe_sends_err s ws rs with herr | hok
          · rw [herr]
            exact hsingle ws _
          · exact hzero ws _ hok
        | unsubscribe rs =>
          dsimp only [StepResult.sends]
          exact hzero ws _ (handle_unsubscribe_sends_err s ws rs)
        | publish r m ts apOk =>
          dsimp only
          cases hp : handle_publish apOk s ws r m ts with
          | ok res =>
            dsimp only [StepResult.sends]
            rcases handle_publish_sends_err apOk s ws r m ts res hp with herr | hok
            · rw [herr]
              exact hsingle ws _
            · exact hzero ws _ hok
          | error e =>
            dsimp only [StepResult.sends]
            exact ⟨by simp, fun p hp' => absurd hp' (List.not_mem_nil p)⟩
        | logout =>
          dsimp only [StepResult.sends]
          exact ⟨by simp, fun p hp' => absurd hp' (List.not_mem_nil p)⟩
        | other n =>
          exact hsingle ws _
        | malformed => exact absurd rfl hm
  · intro s ws u hu
    constructor
    · unfold handlerStep
      rw [if_neg (fun h => ClientAction.noConfusion h),
          if_neg (fun hc : _ ∧ _ => Option.noConfusion (hu ▸ hc.2))]
      dsimp only
      have hred : handle_unsubscribe s ws (some []) = (s, []) := by
        unfold handle_unsubscribe
        rw [hu]
        rfl
      rw [hred]
    · unfold handlerStep
      rw [if_neg (fun h => ClientAction.noConfusion h),
          if_neg (fun hc : _ ∧ _ => Option.noConfusion (hu ▸ hc.2))]
      dsimp only
      have hred : handle_subscribe s ws (some []) =
          (s, [(ws, Payload.errAct "subscribe" "rooms list required")]) := rfl
      rw [hred]

/-- C8 amended witness: in the two-user state, alice's empty-list
unsubscribe is silently ignored while the empty-list subscribe gets the
single validation error; and the malformed-payload path emits exactly one
error, addressed to the requester. -/
theorem c8_error_discipline_witness :
    (((handlerStep exSt 1 ClientAction.malformed).sends.countP
        (fun p => isErrPayload p.2)) ≤ 1) ∧
    (handlerStep exSt 1 (.unsubscribe (some [])) = .cont exSt [] ∧
      handlerStep exSt 1 (.subscribe (some [])) =
        .cont exSt [(1, .errAct "subscribe" "rooms list required")]) :=
  ⟨(c8_error_discipline.1 exSt 1 ClientAction.malformed).1,
   c8_error_discipline.2 exSt 1 "alice" (by decide)⟩

/-! ### Counting and projection lemmas for disconnect -/

theorem count_flatMap_zero {f : String → List Send} {x : Send} :
    ∀ l : List String, (∀ r ∈ l, (f r).count x = 0) → (l.flatMap f).count x = 0 := by
  intro l
  induction l with
  | nil => intro h; rfl
  | cons a rest ih =>
    intro h
    rw [List.flatMap_cons, List.count_append, h a (List.mem_cons_self a rest),
        ih (fun r hr => h r (List.mem_cons_of_mem a hr))]

theorem count_flatMap_one {f : String → List Send} {x : Send} {r : String} :
    ∀ l : List String, l.Nodup → r ∈ l → (f r).count x = 1 →
      (∀ r' ∈ l, r' ≠ r → (f r').count x = 0) → (l.flatMap f).count x = 1 := by
  intro l
  induction l with
  | nil => intro _ hr; exact absurd hr (List.not_mem_nil r)
  | cons a rest ih =>
    intro hnd hr hone hzero
    rw [List.nodup_cons] at hnd
    rw [List.flatMap_cons, List.count_append]
    rcases List.mem_cons.mp hr with heq | hr2
    · subst heq
      rw [hone, count_flatMap_zero rest (fun r' hr' =>
        hzero r' (List.mem_cons_of_mem _ hr')
          (fun hc => hnd.1 (hc ▸ hr')))]
    · have har : a ≠ r := fun hc => hnd.1 (hc ▸ hr2)
      rw [hzero a (List.mem_cons_self a rest) har,
          ih hnd.2 hr2 hone
            (fun r' hr' hner => hzero r' (List.mem_cons_of_mem _ hr') hner)]

theorem count_map_pair (l : List Conn) (p : Payload) (m : Conn) :
    ((l.map (fun t => (t, p))).count (m, p)) = l.count m := by
  induction l with
  | nil => rfl
  | cons a rest ih =>
    rw [List.map_cons, List.count_cons, List.count_cons, ih]
    by_cases hma : m = a
    · subst hma
      simp
    · have h1 : ((m, p) : Send) ≠ (a, p) := fun hc => hma (congrArg Prod.fst hc)
      simp [hma, h1]

theorem count_pair_ne_payload (l : List Conn) {p q : Payload} (m : Conn)
    (h : q ≠ p) : ((l.map (fun t => (t, p))).count (m, q)) = 0 := by
  rw [List.count_eq_zero]
  intro hc
  obtain ⟨t, ht, heq⟩ := List.mem_map.mp hc
  exact h (congrArg Prod.snd heq).symm

theorem broadcast_none_eq (s : ServerState) (room : String) (p : Payload) :
    broadcast s room p none = (roomMembers s room).map (fun t => (t, p)) := rfl

theorem broadcast_room_update_eq (s : ServerState) (room : String) :
    broadcast_room_update s room =
      if roomMembers s room = [] then []
      else (roomMembers s room).map
        (fun t => (t, Payload.roomUpdate room (memberNames s room))) := rfl

theorem disconnect_users (s : ServerState) (ws : Conn) (u : String)
    (hu : dictGet s.users ws = some u) (hne : u ≠ "") :
    (disconnect s ws).1.users = dictPop s.users ws := by
  simp only [disconnect, hu]
  rw [if_neg hne]

theorem disconnect_usernames (s : ServerState) (ws : Conn) (u : String)
    (hu : dictGet s.users ws = some u) (hne : u ≠ "") :
    (disconnect s ws).1.usernames = s.usernames.erase u := by
  simp only [disconnect, hu]
  rw [if_neg hne]

theorem disconnect_rooms (s : ServerState) (ws : Conn) (u : String)
    (hu : dictGet s.users ws = some u) (hne : u ≠ "") :
    (disconnect s ws).1.rooms =
      (s.rooms.map (fun p => (p.1, p.2.erase ws))).filter
        (fun p => !p.2.isEmpty) := by
  simp only [disconnect, hu]
  rw [if_neg hne]

theorem disconnect_snd (s : ServerState) (ws : Conn) (u : String)
    (hu : dictGet s.users ws = some u) (hne : u ≠ "") :
    (disconnect s ws).2 =
      (roomsOf s ws).flatMap (fun room =>
        broadcast (disconnect s ws).1 room (Payload.sysLeave room u) none ++
          broadcast_room_update (disconnect s ws).1 room) := by
  simp only [disconnect, hu]
  rw [if_neg hne]
  rfl

theorem disconnect_clears (s : ServerState) (ws : Conn) (hwf : stateWF s) :
    dictGet (disconnect s ws).1.users ws = none ∧
    ∀ room, ws ∉ roomMembers (disconnect s ws).1 room := by
  obtain ⟨h1, h2, h3, h4, h5, h6, h7⟩ := hwf
  cases hg : dictGet s.users ws with
  | none =>
    have hred : disconnect s ws = (s, []) := by
      simp only [disconnect, hg]
    rw [hred]
    refine ⟨hg, ?_⟩
    intro room hc
    unfold roomMembers at hc
    cases hgr : dictGet s.rooms room with
    | none =>
      rw [hgr] at hc
      exact absurd hc (List.not_mem_nil ws)
    | some subs =>
      rw [hgr] at hc
      simp only [Option.getD_some] at hc
      have := (h7 _ (dictGet_mem hgr)).2.2 ws hc
      exact dictGet_eq_none.mp hg this
  | some u =>
    have hne : u ≠ "" := (h5 _ (dictGet_mem hg)).2
    refine ⟨?_, ?_⟩
    · rw [disconnect_users s ws u hg hne]
      exact dictGet_dictPop_self h2
    · intro room hc
      unfold roomMembers at hc
      cases hgd : dictGet (disconnect s ws).1.rooms room with
      | none =>
        rw [hgd] at hc
        exact absurd hc (List.not_mem_nil ws)
      | some subs =>
        rw [hgd] at hc
        simp only [Option.getD_some] at hc
        have hmem := dictGet_mem hgd
        rw [disconnect_rooms s ws u hg hne] at hmem
        rw [List.mem_filter] at hmem
        obtain ⟨q, hq, heq⟩ := List.mem_map.mp hmem.1
        have hsubs : subs = q.2.erase ws := (congrArg Prod.snd heq).symm
        rw [hsubs] at hc
        exact (h7 q hq).2.1.not_mem_erase hc

theorem mem_roomsOf (s : ServerState) (ws : Conn) (room : String)
    (h : ws ∈ roomMembers s room) : room ∈ roomsOf s ws := by
  unfold roomMembers at h
  cases hg : dictGet s.rooms room with
  | none =>
    rw [hg] at h
    exact absurd h (List.not_mem_nil ws)
  | some subs =>
    rw [hg] at h
    simp only [Option.getD_some] at h
    unfold roomsOf
    refine List.mem_map.mpr ⟨(room, subs), ?_, rfl⟩
    rw [List.mem_filter]
    exact ⟨dictGet_mem hg, by simp [h]⟩

/-! ### C5 -/

/-- C5: cleanup after termination: `disconnect` releases the Registry
entry and the username, removes the connection from every room, and for
each room the connection was in broadcasts exactly one leave notice and
exactly one updated membership list to each remaining subscriber; a second
`disconnect` for the same connection is a no-op; and through every exit
path of the `handler` loop (logout break, propagated exception, transport
close — i.e. any action sequence), the final state has the connection in
no room and no Registry entry, cleanup having run exactly once in the
`finally:` block. -/
theorem c5_cleanup (s : ServerState) (ws : Conn) (u : String)
    (hwf : stateWF s) (hu : dictGet s.users ws = some u) :
    dictGet (disconnect s ws).1.users ws = none ∧
    u ∉ (disconnect s ws).1.usernames ∧
    (∀ room, ws ∉ roomMembers (disconnect s ws).1 room) ∧
    (∀ room, ws ∈ roomMembers s room →
      ∀ m ∈ roomMembers (disconnect s ws).1 room,
        (disconnect s ws).2.count (m, Payload.sysLeave room u) = 1 ∧
        (disconnect s ws).2.count
          (m, Payload.roomUpdate room
                (memberNames (disconnect s ws).1 room)) = 1) ∧
    disconnect (disconnect s ws).1 ws = ((disconnect s ws).1, []) ∧
    (∀ acts : List ClientAction,
        dictGet (handler s ws acts).1.users ws = none ∧
        ∀ room, ws ∉ roomMembers (handler s ws acts).1 room) := by
  have hclears := disconnect_clears s ws hwf
  obtain ⟨h1, h2, h3, h4, h5, h6, h7⟩ := hwf
  have hne : u ≠ "" := (h5 _ (dictGet_mem hu)).2
  have hwfd : stateWF (disconnect s ws).1 :=
    stateWF_disconnect s ws ⟨h1, h2, h3, h4, h5, h6, h7⟩
  refine ⟨hclears.1, ?_, hclears.2, ?_, ?_, ?_⟩
  · rw [disconnect_usernames s ws u hu hne]
    exact h1.not_mem_erase
  · intro room hmem0 m hm
    have hrnd : (roomsOf s ws).Nodup :=
      ((List.filter_sublist s.rooms).map Prod.fst).nodup h6
    have hrin : room ∈ roomsOf s ws := mem_roomsOf s ws room hmem0
    have hmnd : (roomMembers (disconnect s ws).1 room).Nodup := by
      unfold roomMembers
      cases hgd : dictGet (disconnect s ws).1.rooms room with
      | none => simp
      | some subs =>
        simp only [Option.getD_some]
        exact (hwfd.2.2.2.2.2.2 _ (dictGet_mem hgd)).2.1
    have hmne : roomMembers (disconnect s ws).1 room ≠ [] :=
      List.ne_nil_of_mem hm
    rw [disconnect_snd s ws u hu hne]
    constructor
    · apply count_flatMap_one (roomsOf s ws) hrnd hrin
      · rw [List.count_append, broadcast_none_eq, count_map_pair,
            List.count_eq_one_of_mem hmnd hm, broadcast_room_update_eq,
            if_neg hmne,
            count_pair_ne_payload _ m (fun hc => Payload.noConfusion hc)]
      · intro r' hr' hner
        rw [List.count_append, broadcast_none_eq,
            count_pair_ne_payload _ m
              (fun hc => hner (Payload.sysLeave.inj hc).1.symm),
            broadcast_room_update_eq]
        by_cases hre : roomMembers (disconnect s ws).1 r' = []
        · rw [if_pos hre]
          rfl
        · rw [if_neg hre,
              count_pair_ne_payload _ m (fun hc => Payload.noConfusion hc)]
    · apply count_flatMap_one (roomsOf s ws) hrnd hrin
      · rw [List.count_append, broadcast_none_eq,
            count_pair_ne_payload _ m (fun hc => Payload.noConfusion hc),
            broadcast_room_update_eq, if_neg hmne, count_map_pair,
            List.count_eq_one_of_mem hmnd hm]
      · intro r' hr' hner
        rw [List.count_append, broadcast_none_eq,
            count_pair_ne_payload _ m (fun hc => Payload.noConfusion hc),
            broadcast_room_update_eq]
        by_cases hre : roomMembers (disconnect s ws).1 r' = []
        · rw [if_pos hre]
          rfl
        · rw [if_neg hre,
              count_pair_ne_payload _ m
                (fun hc => hner (Payload.roomUpdate.inj hc).1.symm)]
  · have hnone := hclears.1
    set d1 := (disconnect s ws).1 with hd
    simp only [disconnect, hnone]
  · intro acts
    have hwf' : stateWF (runLoop ws s acts).1 :=
      stateWF_runLoop ws acts s ⟨h1, h2, h3, h4, h5, h6, h7⟩
    have hcl := disconnect_clears (runLoop ws s acts).1 ws hwf'
    have heq : (handler s ws acts).1 = (disconnect (runLoop ws s acts).1 ws).1 := rfl
    rw [heq]
    exact hcl

/-- C5 witness: disconnecting alice (connection 1, subscribed to `general`
with bob) releases her entry and name, bob gets exactly one leave notice
and one membership update, and a second disconnect is a no-op. -/
theorem c5_cleanup_witness :
    dictGet (disconnect exSt 1).1.users 1 = none ∧
    "alice" ∉ (disconnect exSt 1).1.usernames ∧
    ((disconnect exSt 1).2.count (2, Payload.sysLeave "general" "alice") = 1 ∧
     (disconnect exSt 1).2.count
       (2, Payload.roomUpdate "general"
             (memberNames (disconnect exSt 1).1 "general")) = 1) ∧
    disconnect (disconnect exSt 1).1 1 = ((disconnect exSt 1).1, []) :=
  ⟨(c5_cleanup exSt 1 "alice" (by decide) (by decide)).1,
   (c5_cleanup exSt 1 "alice" (by decide) (by decide)).2.1,
   (c5_cleanup exSt 1 "alice" (by decide) (by decide)).2.2.2.1 "general"
     (by decide) 2 (by decide),
   (c5_cleanup exSt 1 "alice" (by decide) (by decide)).2.2.2.2.1⟩
